import Mathlib

/-!
Verification of the `tsunami_ip_utils` repository: a shallow embedding,
over exact real arithmetic, of the similarity-index computations
(`tsunami_ip_utils.py`) and the reader post-processing steps
(`src/tsunami_ip_utils/readers.py`), together with theorems settling the
stated behavioural claims.

Conventions used throughout:
* a `ufloat` (a value with an attached standard deviation, as produced by
  the `uncertainties` package) is embedded as `UF`, a pair of reals;
  first-order propagation computes the nominal value of every arithmetic
  composition as the corresponding exact real composition of the nominal
  values, so nominal-value results are stated on the `n` projections;
* for the `'automatic'` propagation mode the exact first-order correlation
  tracking of the `uncertainties` package is embedded by affine forms
  `AF`: a nominal value plus a finitely supported vector of derivatives
  with respect to independent unit-variance atoms;
* Python floats are idealised as real numbers; `sqrt` of a negative
  number (which in Python does not produce a real result) is embedded as
  `Option.none` where it can arise.
-/

namespace TsunamiIP

/-- Embedding of a `ufloat`: nominal value `n` and standard deviation `s`. -/
structure UF where
  n : ℝ
  s : ℝ

/-! ### Uncertainty-contribution aggregation (`readers.py`)

`read_uncertainty_contributions_out` and `read_uncertainty_contributions_sdf`
both parse a table of records `{'isotope', 'reaction_type', 'contribution'}`
and then aggregate the reaction-wise contributions into isotope totals.
The aggregation operates on the parsed records, embedded as
`ContribRecord`; the contribution is embedded by its nominal value, since
the nominal values of the totals depend only on the nominal values of the
contributions (first-order propagation computes nominal values by exact
real arithmetic), and the comparison `contribution < 0` compares nominal
values. -/

/-- One parsed record of the `contributions to uncertainty in k-eff` table. -/
structure ContribRecord where
  isotope : String
  reaction_type : String
  contribution : ℝ

/-- One step of the shared accumulation loop body: find (or insert, with
initial value `ufloat(0,0)`) the isotope's running total, then subtract the
squared contribution if the contribution is negative and add it otherwise
(`if contribution < 0: ... -= c**2 else: ... += c**2`). The running totals
are kept as an association list in Python-`dict` insertion order. -/
noncomputable def addContribution (totals : List (String × ℝ)) (iso : String) (c : ℝ) :
    List (String × ℝ) :=
  let totals := if totals.any (fun p => p.1 = iso) then totals else totals ++ [(iso, 0)]
  totals.map (fun p => if p.1 = iso then (p.1, if c < 0 then p.2 - c ^ 2 else p.2 + c ^ 2) else p)

/-- The running signed sums of squares, per isotope, after processing all
records (the `isotope_totals` dictionary of both readers just before the
final square-root pass). -/
noncomputable def isotopeAccums (records : List ContribRecord) : List (String × ℝ) :=
  records.foldl (fun t r => addContribution t r.isotope r.contribution) []

/-- Final pass of `read_uncertainty_contributions_out`
(`isotope_totals[isotope] = total**0.5`): there is no branch on the sign of
the running total, and `total**0.5` for a negative `total` is not a real
number in Python (`float` power yields a complex value), embedded as
`none`. -/
noncomputable def isotope_totals_out (records : List ContribRecord) :
    List (String × Option ℝ) :=
  (isotopeAccums records).map
    (fun p => (p.1, if p.2 < 0 then none else some (Real.sqrt p.2)))

/-- Final pass of `read_uncertainty_contributions_sdf` for one application
(`total**0.5 if total > 0 else -(-total)**0.5`), which allows for negative
isotope totals. -/
noncomputable def isotope_totals_sdf (records : List ContribRecord) :
    List (String × ℝ) :=
  (isotopeAccums records).map
    (fun p => (p.1, if p.2 > 0 then Real.sqrt p.2 else -Real.sqrt (-p.2)))

/-- Spec-side description of the running signed sum of squares: add the
square of each nonnegative contribution, subtract the square of each
negative one. -/
noncomputable def signed_square_sum (cs : List ℝ) : ℝ :=
  (cs.map (fun c => if c < 0 then -(c ^ 2) else c ^ 2)).sum

/-- Spec-side description of the total produced from a running sum `t`:
the square root of `|t|` carrying the sign of `t`. -/
noncomputable def signed_sqrt (t : ℝ) : ℝ := Real.sign t * Real.sqrt |t|

/-- Contributions of the records belonging to one isotope, in record order. -/
def contributionsOf (records : List ContribRecord) (iso : String) : List ℝ :=
  (records.filter (fun r => r.isotope = iso)).map ContribRecord.contribution

/-- Association-list lookup (first match), as Python `dict` access. -/
def alookup {α : Type} (l : List (String × α)) (iso : String) : Option α :=
  (l.find? (fun p => p.1 = iso)).map Prod.snd

/-! ### Profile groupwise data split (`SdfReader._read_sdf`, `readers.py`)

After parsing, each profile's raw data block is split into sensitivities
and uncertainties:
`match[:-1] + [np.array(match[-1][:num_groups])[::-1], np.array(match[-1][num_groups:])[::-1]]`.
The step is embedded on the raw block (the flattened list of parsed data
values for one profile) together with the group count declared by the file
header. -/

/-- The split of one profile's raw data block: the first `num_groups`
values (sensitivities) and the remaining values (uncertainties), each
reversed relative to raw-file order. -/
def profile_groupwise_split (num_groups : ℕ) (raw : List ℝ) : List ℝ × List ℝ :=
  ((raw.take num_groups).reverse, (raw.drop num_groups).reverse)

/-! ### Error propagation functions (`tsunami_ip_utils.py`)

The `'manual'` propagation mode works componentwise on nominal values and
standard deviations, with no correlation tracking, so a `ufloat` is
embedded as the pair `UF` for this mode. -/

/-- Nominal values of a vector of `ufloat`s (`unumpy.nominal_values`). -/
def nominal_values (v : List UF) : List ℝ := v.map UF.n

/-- Standard deviations of a vector of `ufloat`s (`unumpy.std_devs`). -/
def std_devs (v : List UF) : List ℝ := v.map UF.s

/-- Norm of the nominal vector: `np.sqrt(np.sum(nominal_values(vector)**2))`. -/
noncomputable def vector_norm (ns : List ℝ) : ℝ :=
  Real.sqrt ((ns.map (fun x => x ^ 2)).sum)

/-- `np.dot` on real vectors. -/
def dotR (a b : List ℝ) : ℝ := (List.zipWith (· * ·) a b).sum

/-- Entry `(i, j)` of the derivative matrix built by
`unit_vector_uncertainty_propagation`: the outer product
`-v[i]*v[j] / ‖v‖³`, with the diagonal overwritten
(`np.fill_diagonal`) by `(‖v‖² - v[i]²)/‖v‖³`. -/
noncomputable def derivative_matrix_entry (ns : List ℝ) (vnorm : ℝ) (i j : ℕ) : ℝ :=
  if i = j then (vnorm ^ 2 - ns.getD i 0 ^ 2) / vnorm ^ 3
  else -(ns.getD i 0) * ns.getD j 0 / vnorm ^ 3

/-- `unit_vector_uncertainty_propagation`: the uncertainties of the
components of `v/‖v‖`, `np.sqrt(np.sum(derivative_matrix**2 *
vector_uncertainties**2, axis=1))` (row `i`, summed over the column index
`j`, weighted by the variance of component `j`). -/
noncomputable def unit_vector_uncertainty_propagation (vector : List UF) : List ℝ :=
  let ns := nominal_values vector
  let vnorm := vector_norm ns
  let ss := std_devs vector
  (List.range vector.length).map (fun i =>
    Real.sqrt (((List.range vector.length).map
      (fun j => derivative_matrix_entry ns vnorm i j ^ 2 * ss.getD j 0 ^ 2)).sum))

/-- `dot_product_uncertainty_propagation`: accumulates
`product_uncertainty**2` over the components, with
`product_uncertainty = 0` whenever either nominal component is zero and
`v1[i].n * v2[i].n * sqrt((s1/n1)² + (s2/n2)²)` otherwise, and returns
the square root of the accumulated sum. -/
noncomputable def dot_product_uncertainty_propagation (vect1 vect2 : List UF) : ℝ :=
  Real.sqrt (((List.range vect1.length).map (fun i =>
    (let a := vect1.getD i ⟨0, 0⟩
     let b := vect2.getD i ⟨0, 0⟩
     if a.n = 0 ∨ b.n = 0 then 0
     else a.n * b.n * Real.sqrt ((a.s / a.n) ^ 2 + (b.s / b.n) ^ 2)) ^ 2)).sum)

/-- The `'manual'` branch of `calculate_E_from_sensitivity_vecs`. The norm
arguments mirror the Python defaults (`None` when not provided, in the
Python argument order `experiment_norm, application_norm`); the guard
`norms_not_provided` is the conjunction of both being `None`, so when
exactly one norm is provided the other remains `None` and the division
`vector / None` raises a `TypeError`, embedded as `none`. The `ufloat`
norms are carried as `UF`; only the nominal part is read by this branch
(for `E = dot_product.n`), so the computed-norm branch stores a zero
standard deviation (never read). -/
noncomputable def calculate_E_manual (application_vector experiment_vector : List UF)
    (experiment_norm application_norm : Option UF) : Option UF :=
  let norms_not_provided := experiment_norm.isNone && application_norm.isNone
  let application_norm := if norms_not_provided
    then some ⟨vector_norm (nominal_values application_vector), 0⟩ else application_norm
  let experiment_norm := if norms_not_provided
    then some ⟨vector_norm (nominal_values experiment_vector), 0⟩ else experiment_norm
  match application_norm, experiment_norm with
  | some an, some en =>
    let application_unit_vector := (nominal_values application_vector).map (· / an.n)
    let experiment_unit_vector := (nominal_values experiment_vector).map (· / en.n)
    let E := dotR application_unit_vector experiment_unit_vector
    let application_unit_vector_error := unit_vector_uncertainty_propagation application_vector
    let experiment_unit_vector_error := unit_vector_uncertainty_propagation experiment_vector
    let E_uncertainty := dot_product_uncertainty_propagation
      (List.zipWith UF.mk application_unit_vector application_unit_vector_error)
      (List.zipWith UF.mk experiment_unit_vector experiment_unit_vector_error)
    some ⟨E, E_uncertainty⟩
  | _, _ => none

/-- Spec-side formula for the similarity index:
`E = (v_app/‖v_app‖) · (v_exp/‖v_exp‖)`. -/
noncomputable def normalized_dot_product (a b : List ℝ) : ℝ :=
  dotR (a.map (fun x => x / vector_norm a)) (b.map (fun x => x / vector_norm b))

/-- Spec-side Jacobian of the normalization `x̂ᵢ = xᵢ/‖x‖`: diagonal
entries `(‖x‖² − xᵢ²)/‖x‖³`, off-diagonal entries `−xᵢ·xⱼ/‖x‖³`. -/
noncomputable def unit_vector_jacobian (x : List ℝ) (i j : ℕ) : ℝ :=
  if i = j then (vector_norm x ^ 2 - x.getD i 0 ^ 2) / vector_norm x ^ 3
  else -(x.getD i 0 * x.getD j 0) / vector_norm x ^ 3

/-- Spec-side per-component contribution variance of the manual
dot-product propagation: `(âᵢ·b̂ᵢ)²·((σ_âᵢ/âᵢ)² + (σ_b̂ᵢ/b̂ᵢ)²)` when both
nominal components are nonzero, and exactly zero when either nominal
component is zero. -/
noncomputable def contribution_variance (a b : UF) : ℝ :=
  if a.n = 0 ∨ b.n = 0 then 0
  else (a.n * b.n) ^ 2 * ((a.s / a.n) ^ 2 + (b.s / b.n) ^ 2)

/-! ### Affine forms for the `'automatic'` propagation mode

The `uncertainties` package represents each quantity, to first order, as a
nominal value plus a linear combination of independent zero-mean,
unit-variance atoms; every arithmetic operation propagates the exact
partial derivatives. `AF` embeds this representation; a freshly created
`ufloat(v, s)` is `⟨v, Finsupp.single a s⟩` for a fresh atom `a`. -/

/-- Affine form: nominal value and derivative (times atom standard
deviation) with respect to each independent atom. -/
structure AF where
  n : ℝ
  d : ℕ →₀ ℝ

/-- Variance of a derivative vector over unit-variance atoms: the sum of
its squared entries. -/
noncomputable def varD (f : ℕ →₀ ℝ) : ℝ := ∑ i in f.support, f i ^ 2

namespace AF

/-- Addition of affine forms. -/
noncomputable def add (x y : AF) : AF := ⟨x.n + y.n, x.d + y.d⟩

/-- Multiplication: first-order product rule. -/
noncomputable def mul (x y : AF) : AF := ⟨x.n * y.n, x.n • y.d + y.n • x.d⟩

/-- Division: first-order quotient rule
`d(x/y) = dx/y − (x/y²)·dy`. -/
noncomputable def div (x y : AF) : AF :=
  ⟨x.n / y.n, (1 / y.n) • x.d + (-(x.n / y.n ^ 2)) • y.d⟩

/-- `umath.sqrt`: chain rule through the square root. -/
noncomputable def sqrtA (x : AF) : AF :=
  ⟨Real.sqrt x.n, (1 / (2 * Real.sqrt x.n)) • x.d⟩

/-- `np.sum` over a list of affine forms. -/
noncomputable def sumA (l : List AF) : AF := l.foldr add ⟨0, 0⟩

/-- Variance of an affine form. -/
noncomputable def var (x : AF) : ℝ := varD x.d

/-- Standard deviation of an affine form. -/
noncomputable def std (x : AF) : ℝ := Real.sqrt (var x)

end AF

/-- The norm subexpression `umath.sqrt(np.sum(vector**2))` of
`calculate_E_from_sensitivity_vecs` (automatic mode). -/
noncomputable def normA (v : List AF) : AF :=
  AF.sqrtA (AF.sumA (v.map (fun x => AF.mul x x)))

/-- The unit vector `vector / norm` of the automatic mode (componentwise
division by the norm, which carries its own derivatives). -/
noncomputable def unitA (v : List AF) : List AF :=
  v.map (fun x => AF.div x (normA v))

/-- Re-creation of a vector's components as fresh independent `ufloat`s
(`[ufloat(v.n, v.s) for v in vector]`): each component keeps its nominal
value and standard deviation but is attached to a fresh atom. Freshness is
embedded by attaching the `k`-th component to atom `2*k + c`, with `c = 0`
for the application vector and `c = 1` for the experiment vector, so that
all fresh atoms are pairwise distinct. -/
noncomputable def sever (c : ℕ) : ℕ → List AF → List AF
  | _, [] => []
  | k, x :: xs => ⟨x.n, Finsupp.single (2 * k + c) (AF.std x)⟩ :: sever c (k + 1) xs

/-- The `'automatic'` branch of `calculate_E_from_sensitivity_vecs`:
raises `ValueError` (embedded `none`) when either filename is missing;
computes both norms only when `norms_not_provided` (both `None`); divides
componentwise by the norms; if the filenames differ, manually breaks the
correlation by re-creating both unit vectors from fresh independent atoms;
returns the dot product `np.dot(application_unit_vector,
experiment_unit_vector)`. When exactly one norm is provided the other
remains `None` and the division raises a `TypeError`, embedded `none`. -/
noncomputable def calculate_E_auto (application_vector experiment_vector : List AF)
    (application_filename experiment_filename : Option String)
    (experiment_norm application_norm : Option AF) : Option AF :=
  let norms_not_provided := experiment_norm.isNone && application_norm.isNone
  match application_filename, experiment_filename with
  | some app_fn, some exp_fn =>
    let application_norm := if norms_not_provided
      then some (normA application_vector) else application_norm
    let experiment_norm := if norms_not_provided
      then some (normA experiment_vector) else experiment_norm
    match application_norm, experiment_norm with
    | some an, some en =>
      let application_unit_vector := application_vector.map (fun x => AF.div x an)
      let experiment_unit_vector := experiment_vector.map (fun x => AF.div x en)
      let application_unit_vector := if app_fn ≠ exp_fn
        then sever 0 0 application_unit_vector else application_unit_vector
      let experiment_unit_vector := if app_fn ≠ exp_fn
        then sever 1 0 experiment_unit_vector else experiment_unit_vector
      some (AF.sumA (List.zipWith AF.mul application_unit_vector experiment_unit_vector))
    | _, _ => none
  | _, _ => none

/-! ### Contribution decomposer (`tsunami_ip_utils.py`)

`get_nuclide_and_reaction_wise_E_contributions` receives the two cases as
twice-nested dictionaries (nuclide → reaction type → profile data, after
`convert_to_dict`); Python `dict`s preserve insertion order, embedded by
association lists. Only the groupwise sensitivity profile of each entry is
consumed. -/

/-- The sensitivity data of one case keyed by nuclide and reaction type. -/
def SdfDict : Type := List (String × List (String × List UF))

/-- `create_sensitivity_vector`: concatenation of the selected groupwise
profiles (nominal values and standard deviations are concatenated
separately and re-paired, which equals concatenating the pairs). -/
def create_sensitivity_vector (sdfs : List (List UF)) : List UF := sdfs.flatten

/-- `get_sensitivity_profiles` on one case: all groupwise profiles in
dictionary order. -/
def get_sensitivity_profiles (d : SdfDict) : List (List UF) :=
  (d.map (fun iso => iso.2.map Prod.snd)).flatten

/-- `application[isotope][reaction]['sensitivities']`; the default `[]`
embeds the source's assumption that every listed reaction is present under
every present nuclide. -/
def profileOf (d : SdfDict) (iso reaction : String) : List UF :=
  (alookup ((alookup d iso).getD []) reaction).getD []

/-- The reaction-type keys of an arbitrary (first) nuclide of the
application (`all_reactions = application[arbitrary_nuclide].keys()`). -/
def allReactions (application : SdfDict) : List String :=
  match application with
  | [] => []
  | a :: _ => a.2.map Prod.fst

/-- The norm `umath.sqrt(np.sum(vector**2))` of a case's full concatenated
sensitivity vector, as passed to the manual mode. Only its nominal part is
ever read there, so the standard deviation is embedded as `0`. -/
noncomputable def fullNorm (d : SdfDict) : UF :=
  ⟨vector_norm (nominal_values (create_sensitivity_vector (get_sensitivity_profiles d))), 0⟩

/-- The `'manual'`-mode result when both norms are provided (the branch
taken by every decomposer call site); see
`calculate_E_manual_with_norms`. -/
noncomputable def E_manual_with_norms (application_vector experiment_vector : List UF)
    (experiment_norm application_norm : UF) : UF :=
  ⟨dotR ((nominal_values application_vector).map (· / application_norm.n))
      ((nominal_values experiment_vector).map (· / experiment_norm.n)),
    dot_product_uncertainty_propagation
      (List.zipWith UF.mk ((nominal_values application_vector).map (· / application_norm.n))
        (unit_vector_uncertainty_propagation application_vector))
      (List.zipWith UF.mk ((nominal_values experiment_vector).map (· / experiment_norm.n))
        (unit_vector_uncertainty_propagation experiment_vector))⟩

/-- `get_nuclide_and_reaction_wise_E_contributions`: computes the norms of
the two full concatenated vectors once, then for every isotope of the
union of the two key sets (the Python `set` union is embedded as an
ordered deduplicated concatenation; the theorems about it only use
membership) emits a `(0, 0)` contribution and `(0, 0)` reaction
contributions if the isotope is missing on either side, and otherwise
manual-mode contributions computed from the isotope's (or reaction's)
concatenated sub-vectors with the precomputed full-vector norms.
`list(application.keys())[0]` raises `IndexError` when the application
dictionary is empty (embedded `none`). -/
noncomputable def get_nuclide_and_reaction_wise_E_contributions
    (application experiment : SdfDict) :
    Option (List (String × UF) × List (String × String × UF)) :=
  let application_norm := fullNorm application
  let experiment_norm := fullNorm experiment
  match application with
  | [] => none
  | _ :: _ =>
    let all_reactions := allReactions application
    let all_isotopes := (application.map Prod.fst ++ experiment.map Prod.fst).dedup
    some (
      all_isotopes.map (fun isotope =>
        if isotope ∉ application.map Prod.fst ∨ isotope ∉ experiment.map Prod.fst then
          (isotope, (⟨0, 0⟩ : UF))
        else
          (isotope, E_manual_with_norms
            (create_sensitivity_vector
              (all_reactions.map (fun r => profileOf application isotope r)))
            (create_sensitivity_vector
              (all_reactions.map (fun r => profileOf experiment isotope r)))
            experiment_norm application_norm)),
      (all_isotopes.map (fun isotope =>
        if isotope ∉ application.map Prod.fst ∨ isotope ∉ experiment.map Prod.fst then
          all_reactions.map (fun reaction => (isotope, reaction, (⟨0, 0⟩ : UF)))
        else
          all_reactions.map (fun reaction =>
            (isotope, reaction, E_manual_with_norms (profileOf application isotope reaction)
              (profileOf experiment isotope reaction)
              experiment_norm application_norm)))).flatten)

/-! ### Lemmas and claim theorems -/

lemma find?_map_addStep (l : List (String × ℝ)) (iso k : String) (c : ℝ) :
    (l.map (fun p => if p.1 = iso then (p.1, if c < 0 then p.2 - c ^ 2 else p.2 + c ^ 2) else p)).find?
        (fun p => p.1 = k)
      = (l.find? (fun p => p.1 = k)).map
          (fun p => if p.1 = iso then (p.1, if c < 0 then p.2 - c ^ 2 else p.2 + c ^ 2) else p) := by
  rw [List.find?_map]
  have hpred : ((fun p : String × ℝ => decide (p.1 = k)) ∘ fun p =>
      if p.1 = iso then (p.1, if c < 0 then p.2 - c ^ 2 else p.2 + c ^ 2) else p)
      = fun p : String × ℝ => decide (p.1 = k) := by
    funext p
    by_cases h : p.1 = iso <;> simp [h]
  rw [hpred]

lemma addContribution_lookup_same (totals : List (String × ℝ)) (iso : String) (c : ℝ) :
    alookup (addContribution totals iso c) iso =
      some ((alookup totals iso).getD 0 + (if c < 0 then -(c ^ 2) else c ^ 2)) := by
  unfold addContribution alookup
  by_cases hmem : totals.any (fun p => p.1 = iso)
  · simp only [hmem, if_true, find?_map_addStep]
    obtain ⟨q, hq⟩ : ∃ q, totals.find? (fun p => decide (p.1 = iso)) = some q := by
      rw [← Option.isSome_iff_exists, List.find?_isSome]
      simpa using hmem
    have hq1 : q.1 = iso := by simpa using List.find?_some hq
    rw [hq]
    by_cases hc : c < 0
    · simp [hc, hq1]
      ring
    · simp [hc, hq1]
  · have hnone : totals.find? (fun p => decide (p.1 = iso)) = none := by
      rw [List.find?_eq_none]
      intro p hp
      simp only [decide_eq_true_eq]
      intro h
      exact hmem (List.any_eq_true.mpr ⟨p, hp, by simp [h]⟩)
    simp only [hmem, Bool.false_eq_true, if_false, find?_map_addStep]
    rw [List.find?_append, hnone]
    by_cases hc : c < 0 <;> simp [hc, hnone, List.find?]

lemma addContribution_lookup_other (totals : List (String × ℝ)) (iso other : String) (c : ℝ)
    (h : other ≠ iso) :
    alookup (addContribution totals iso c) other = alookup totals other := by
  unfold addContribution alookup
  have hstep : ∀ q : String × ℝ, q.1 = other →
      (if q.1 = iso then (q.1, if c < 0 then q.2 - c ^ 2 else q.2 + c ^ 2) else q) = q := by
    intro q hq
    rw [if_neg]
    rw [hq]
    exact h
  by_cases hmem : totals.any (fun p => p.1 = iso)
  · simp only [hmem, if_true, find?_map_addStep]
    cases hfind : totals.find? (fun p => decide (p.1 = other)) with
    | none => simp
    | some q =>
      have hq1 : q.1 = other := by simpa using List.find?_some hfind
      simp [hstep q hq1]
  · simp only [hmem, Bool.false_eq_true, if_false, find?_map_addStep]
    rw [List.find?_append]
    cases hfind : totals.find? (fun p => decide (p.1 = other)) with
    | none =>
      have hlast : ([((iso : String), (0 : ℝ))].find? (fun p => decide (p.1 = other))) = none := by
        have hne : ¬ (iso = other) := fun hh => h hh.symm
        simp [List.find?, hne]
      simp [hlast]
    | some q =>
      have hq1 : q.1 = other := by simpa using List.find?_some hfind
      simp [hstep q hq1]

lemma isotopeAccums_go (records : List ContribRecord) (totals : List (String × ℝ))
    (iso : String) :
    alookup (records.foldl (fun t r => addContribution t r.isotope r.contribution) totals) iso
      = if records.any (fun r => r.isotope = iso) ∨ (alookup totals iso).isSome
        then some ((alookup totals iso).getD 0 + signed_square_sum (contributionsOf records iso))
        else none := by
  induction records generalizing totals with
  | nil =>
    cases htot : alookup totals iso with
    | none => simp [htot, signed_square_sum, contributionsOf]
    | some t => simp [htot, signed_square_sum, contributionsOf]
  | cons r rs ih =>
    by_cases hr : r.isotope = iso
    · subst hr
      rw [List.foldl_cons, ih]
      have hsame := addContribution_lookup_same totals r.isotope r.contribution
      have hcontr : contributionsOf (r :: rs) r.isotope
          = r.contribution :: contributionsOf rs r.isotope := by
        simp [contributionsOf]
      rw [hsame, hcontr]
      have hany : ((r :: rs).any fun x => decide (x.isotope = r.isotope)) = true := by
        simp
      rw [hany]
      simp only [signed_square_sum, List.map_cons, List.sum_cons, Option.isSome_some, or_true,
        if_true, Option.getD_some, true_or]
      congr 1
      ring
    · rw [List.foldl_cons, ih]
      rw [addContribution_lookup_other totals r.isotope iso r.contribution (fun hh => hr hh.symm)]
      have hcontr : contributionsOf (r :: rs) iso = contributionsOf rs iso := by
        simp [contributionsOf, hr]
      simp [hcontr, hr]

lemma isotopeAccums_lookup (records : List ContribRecord) (iso : String) :
    alookup (isotopeAccums records) iso
      = if records.any (fun r => r.isotope = iso)
        then some (signed_square_sum (contributionsOf records iso)) else none := by
  have := isotopeAccums_go records [] iso
  simpa [isotopeAccums, alookup] using this

lemma alookup_map_value {α β : Type} (l : List (String × α)) (f : α → β) (k : String) :
    alookup (l.map (fun p => (p.1, f p.2))) k = (alookup l k).map f := by
  unfold alookup
  rw [List.find?_map]
  have hpred : ((fun p : String × β => decide (p.1 = k)) ∘ (fun p : String × α => (p.1, f p.2)))
      = fun p : String × α => decide (p.1 = k) := by
    funext p
    simp
  rw [hpred]
  cases l.find? (fun p : String × α => decide (p.1 = k)) <;> simp

lemma sdf_sqrt_step (t : ℝ) :
    (if t > 0 then Real.sqrt t else -Real.sqrt (-t)) = signed_sqrt t := by
  unfold signed_sqrt
  rcases lt_trichotomy t 0 with hneg | hzero | hpos
  · rw [if_neg (by linarith), Real.sign_of_neg hneg, abs_of_neg hneg]
    ring
  · simp [hzero]
  · rw [if_pos hpos, Real.sign_of_pos hpos, abs_of_pos hpos]
    ring

lemma isotope_totals_sdf_lookup (records : List ContribRecord) (iso : String)
    (h : records.any (fun r => r.isotope = iso)) :
    alookup (isotope_totals_sdf records) iso
      = some (signed_sqrt (signed_square_sum (contributionsOf records iso))) := by
  unfold isotope_totals_sdf
  rw [alookup_map_value (isotopeAccums records)
    (fun t => if t > 0 then Real.sqrt t else -Real.sqrt (-t)) iso]
  rw [isotopeAccums_lookup, if_pos h]
  simp [sdf_sqrt_step]

lemma sqrt_twentyfive : Real.sqrt 25 = 5 := by
  rw [show (25 : ℝ) = 5 ^ 2 by norm_num, Real.sqrt_sq (by norm_num : (0:ℝ) ≤ 5)]

/-- C1: the signed-quadrature aggregation of `read_uncertainty_contributions_sdf`
accumulates a running signed sum of squares (adding the square of each
positive contribution, subtracting the square of each negative one) and
returns the square root of the absolute running sum carrying the sign of
the running sum; concretely, contributions `[3, 4]` give the nuclide total
`5`, while contributions `[3, -4]` give running sum `-7` and total `-√7`. -/
theorem sdf_total_is_signed_quadrature (records : List ContribRecord) (iso : String)
    (h : records.any (fun r => r.isotope = iso)) :
    alookup (isotope_totals_sdf records) iso
        = some (signed_sqrt (signed_square_sum (contributionsOf records iso)))
      ∧ isotope_totals_sdf [⟨"u-235", "fission", 3⟩, ⟨"u-235", "capture", 4⟩] = [("u-235", 5)]
      ∧ signed_square_sum [3, -4] = -7
      ∧ isotope_totals_sdf [⟨"u-235", "fission", 3⟩, ⟨"u-235", "capture", -4⟩]
          = [("u-235", -Real.sqrt 7)] := by
  refine ⟨isotope_totals_sdf_lookup records iso h, ?_, ?_, ?_⟩
  · simp only [isotope_totals_sdf, isotopeAccums, List.foldl_cons, List.foldl_nil]
    norm_num [addContribution, sqrt_twentyfive]
  · norm_num [signed_square_sum]
  · simp only [isotope_totals_sdf, isotopeAccums, List.foldl_cons, List.foldl_nil]
    norm_num [addContribution]

/-- Witness for C1 at a concrete record list. -/
theorem sdf_total_is_signed_quadrature_witness :
    alookup (isotope_totals_sdf [⟨"h-1", "total", 3⟩]) "h-1"
      = some (signed_sqrt (signed_square_sum (contributionsOf [⟨"h-1", "total", 3⟩] "h-1"))) :=
  (sdf_total_is_signed_quadrature [⟨"h-1", "total", 3⟩] "h-1" (by simp)).1

/-- C2 counterexample: on the records with contributions `[3, -4]` for a
single isotope, `read_uncertainty_contributions_out` computes `(-7)**0.5`
(no real result: it lacks the negative-total branch), while
`read_uncertainty_contributions_sdf` produces the negative total `-√7`, so
the two aggregations do not behave identically. -/
theorem out_sdf_totals_disagree_on_negative :
    isotope_totals_out [⟨"u-235", "n,gamma", 3⟩, ⟨"u-235", "elastic", -4⟩]
      ≠ (isotope_totals_sdf [⟨"u-235", "n,gamma", 3⟩, ⟨"u-235", "elastic", -4⟩]).map
          (fun p => (p.1, some p.2)) := by
  simp only [isotope_totals_out, isotope_totals_sdf, isotopeAccums, List.foldl_cons,
    List.foldl_nil]
  norm_num [addContribution]
  simp

/-- C2 amended: the two aggregation call sites agree (the `.out` reader
produces real totals equal to the `.sdf` reader's totals) exactly on record
lists in which every isotope's running signed sum of squares is
nonnegative; when some running sum is negative the `.sdf` reader returns
the negated square root while the `.out` reader has no real result. -/
theorem out_sdf_totals_agree_on_nonneg (records : List ContribRecord)
    (h : ∀ p ∈ isotopeAccums records, 0 ≤ p.2) :
    isotope_totals_out records
      = (isotope_totals_sdf records).map (fun p => (p.1, some p.2)) := by
  unfold isotope_totals_out isotope_totals_sdf
  rw [List.map_map]
  apply List.map_congr_left
  intro p hp
  have h0 := h p hp
  rcases lt_or_eq_of_le h0 with hpos | hzero
  · simp [not_lt.mpr h0, hpos]
  · simp [← hzero]

/-- Witness for the amended C2 on a record list with nonnegative running sums. -/
theorem out_sdf_totals_agree_on_nonneg_witness :
    isotope_totals_out [⟨"h-1", "total", 3⟩]
      = (isotope_totals_sdf [⟨"h-1", "total", 3⟩]).map (fun p => (p.1, some p.2)) := by
  apply out_sdf_totals_agree_on_nonneg
  intro p hp
  simp only [isotopeAccums, List.foldl_cons, List.foldl_nil] at hp
  norm_num [addContribution] at hp
  rw [hp]
  norm_num

/-- C9: for a profile block whose header declares `N` energy groups and
whose raw data block holds `2 * N` values, the stored sensitivities are the
first `N` raw values reversed and the stored uncertainties are the last `N`
raw values reversed (index `0` is the lowest energy group, i.e. the last
raw value of each half), and both stored sequences have length `N`. -/
theorem profile_groupwise_split_spec (N : ℕ) (raw : List ℝ) (h : raw.length = 2 * N) :
    (profile_groupwise_split N raw).1.length = N
    ∧ (profile_groupwise_split N raw).2.length = N
    ∧ (∀ i, i < N → (profile_groupwise_split N raw).1.getD i 0 = raw.getD (N - 1 - i) 0)
    ∧ (∀ i, i < N → (profile_groupwise_split N raw).2.getD i 0 = raw.getD (2 * N - 1 - i) 0) := by
  refine ⟨?_, ?_, ?_, ?_⟩
  · simp [profile_groupwise_split, h]
    omega
  · simp [profile_groupwise_split, h]
    omega
  · intro i hi
    rw [show (profile_groupwise_split N raw).1 = (raw.take N).reverse from rfl]
    rw [List.getD_eq_getElem?_getD, List.getD_eq_getElem?_getD]
    rw [List.getElem?_reverse (by simp [h]; omega)]
    rw [List.length_take]
    rw [show min N raw.length - 1 - i = N - 1 - i by simp [h]; omega]
    rw [List.getElem?_take, if_pos (by omega)]
  · intro i hi
    rw [show (profile_groupwise_split N raw).2 = (raw.drop N).reverse from rfl]
    rw [List.getD_eq_getElem?_getD, List.getD_eq_getElem?_getD]
    rw [List.getElem?_reverse (by simp [h]; omega)]
    rw [List.length_drop]
    rw [List.getElem?_drop]
    rw [show N + (raw.length - N - 1 - i) = 2 * N - 1 - i by omega]

/-- Witness for C9 at a concrete raw block with two groups. -/
theorem profile_groupwise_split_spec_witness :
    ([(1 : ℝ), 2, 3, 4].length = 2 * 2)
    ∧ (profile_groupwise_split 2 [(1 : ℝ), 2, 3, 4]).1.length = 2 := by
  refine ⟨by norm_num, (profile_groupwise_split_spec 2 [(1 : ℝ), 2, 3, 4] (by norm_num)).1⟩

lemma getD_map_range {α : Type} (n i : ℕ) (f : ℕ → α) (d : α) (h : i < n) :
    ((List.range n).map f).getD i d = f i := by
  rw [List.getD_eq_getElem?_getD, List.getElem?_map, List.getElem?_range h]
  rfl

/-- C5: in manual mode the unit-vector component uncertainties are the
groupwise variances propagated through the Jacobian of `x̂ᵢ = xᵢ/‖x‖`
(diagonal `(‖x‖² − xᵢ²)/‖x‖³`, off-diagonal `−xᵢxⱼ/‖x‖³`): the `i`-th
propagated uncertainty is the square root of the sum over `j` of the
squared Jacobian entry `(i, j)` times the variance of component `j`. -/
theorem unit_vector_uncertainty_is_jacobian_propagation (vector : List UF) (i : ℕ)
    (h : i < vector.length) :
    (unit_vector_uncertainty_propagation vector).getD i 0
      = Real.sqrt (((List.range vector.length).map (fun j =>
          unit_vector_jacobian (nominal_values vector) i j ^ 2
            * ((std_devs vector).getD j 0) ^ 2)).sum) := by
  unfold unit_vector_uncertainty_propagation
  rw [getD_map_range _ _ _ _ h]
  have hentry : ∀ j, derivative_matrix_entry (nominal_values vector)
      (vector_norm (nominal_values vector)) i j
        = unit_vector_jacobian (nominal_values vector) i j := by
    intro j
    unfold derivative_matrix_entry unit_vector_jacobian
    by_cases hij : i = j <;> simp [hij]
  simp only [hentry]

/-- Witness for C5 on a concrete two-component vector. -/
theorem unit_vector_uncertainty_is_jacobian_propagation_witness :
    (0 : ℕ) < ([⟨3, 1⟩, ⟨4, 2⟩] : List UF).length
    ∧ (unit_vector_uncertainty_propagation [⟨3, 1⟩, ⟨4, 2⟩]).getD 0 0
      = Real.sqrt (((List.range ([⟨3, 1⟩, ⟨4, 2⟩] : List UF).length).map (fun j =>
          unit_vector_jacobian (nominal_values [⟨3, 1⟩, ⟨4, 2⟩]) 0 j ^ 2
            * ((std_devs [⟨3, 1⟩, ⟨4, 2⟩]).getD j 0) ^ 2)).sum) :=
  ⟨by norm_num, unit_vector_uncertainty_is_jacobian_propagation [⟨3, 1⟩, ⟨4, 2⟩] 0 (by norm_num)⟩

/-- C6: the manual dot-product uncertainty is the root-sum-of-squares of
the per-component contribution variances
`(âᵢ·b̂ᵢ)²·((σ_âᵢ/âᵢ)² + (σ_b̂ᵢ/b̂ᵢ)²)`, with the contribution variance
exactly zero whenever either nominal component is zero (so the division by
a nominal component is never performed for a zero component). -/
theorem dot_product_uncertainty_is_rss_of_contributions (vect1 vect2 : List UF)
    (h : vect1.length = vect2.length) :
    dot_product_uncertainty_propagation vect1 vect2
      = Real.sqrt (((List.range vect1.length).map (fun i =>
          contribution_variance (vect1.getD i ⟨0, 0⟩) (vect2.getD i ⟨0, 0⟩))).sum)
    ∧ ∀ a b : UF, (a.n = 0 ∨ b.n = 0) → contribution_variance a b = 0 := by
  constructor
  · unfold dot_product_uncertainty_propagation
    congr 1
    congr 1
    apply List.map_congr_left
    intro i _
    dsimp only
    by_cases hz : (vect1.getD i ⟨0, 0⟩).n = 0 ∨ (vect2.getD i ⟨0, 0⟩).n = 0
    · rw [if_pos hz]
      unfold contribution_variance
      rw [if_pos hz]
      norm_num
    · rw [if_neg hz]
      unfold contribution_variance
      rw [if_neg hz]
      have hnonneg : (0 : ℝ) ≤ ((vect1.getD i ⟨0, 0⟩).s / (vect1.getD i ⟨0, 0⟩).n) ^ 2
          + ((vect2.getD i ⟨0, 0⟩).s / (vect2.getD i ⟨0, 0⟩).n) ^ 2 := by positivity
      rw [mul_pow, Real.sq_sqrt hnonneg]
  · intro a b hz
    simp [contribution_variance, hz]

/-- Witness for C6 on concrete vectors with a zero component. -/
theorem dot_product_uncertainty_is_rss_of_contributions_witness :
    ([⟨3, 1⟩, ⟨0, 2⟩] : List UF).length = ([⟨2, 1⟩, ⟨5, 1⟩] : List UF).length
    ∧ dot_product_uncertainty_propagation [⟨3, 1⟩, ⟨0, 2⟩] [⟨2, 1⟩, ⟨5, 1⟩]
      = Real.sqrt (((List.range ([⟨3, 1⟩, ⟨0, 2⟩] : List UF).length).map (fun i =>
          contribution_variance (([⟨3, 1⟩, ⟨0, 2⟩] : List UF).getD i ⟨0, 0⟩)
            (([⟨2, 1⟩, ⟨5, 1⟩] : List UF).getD i ⟨0, 0⟩))).sum) :=
  ⟨rfl, (dot_product_uncertainty_is_rss_of_contributions
    [⟨3, 1⟩, ⟨0, 2⟩] [⟨2, 1⟩, ⟨5, 1⟩] rfl).1⟩

lemma calculate_E_manual_no_norms (application_vector experiment_vector : List UF) :
    calculate_E_manual application_vector experiment_vector none none
      = some ⟨dotR ((nominal_values application_vector).map
            (· / vector_norm (nominal_values application_vector)))
          ((nominal_values experiment_vector).map
            (· / vector_norm (nominal_values experiment_vector))),
        dot_product_uncertainty_propagation
          (List.zipWith UF.mk ((nominal_values application_vector).map
              (· / vector_norm (nominal_values application_vector)))
            (unit_vector_uncertainty_propagation application_vector))
          (List.zipWith UF.mk ((nominal_values experiment_vector).map
              (· / vector_norm (nominal_values experiment_vector)))
            (unit_vector_uncertainty_propagation experiment_vector))⟩ := rfl

/-- C3: the nominal similarity index returned by
`calculate_E_from_sensitivity_vecs` (manual mode, no externally supplied
norms) is the normalized dot product `(v_app/‖v_app‖)·(v_exp/‖v_exp‖)`;
in particular for `application = experiment = [1,2,3]` with zero
uncertainties `E = 1` exactly, and for `application = [1,0,0]`,
`experiment = [0,1,0]` with zero uncertainties `E = 0` exactly. -/
theorem E_nominal_is_normalized_dot (application_vector experiment_vector : List UF)
    (h : application_vector.length = experiment_vector.length) :
    ((calculate_E_manual application_vector experiment_vector none none).map UF.n)
        = some (normalized_dot_product (nominal_values application_vector)
            (nominal_values experiment_vector))
    ∧ ((calculate_E_manual [⟨1, 0⟩, ⟨2, 0⟩, ⟨3, 0⟩] [⟨1, 0⟩, ⟨2, 0⟩, ⟨3, 0⟩]
          none none).map UF.n) = some 1
    ∧ ((calculate_E_manual [⟨1, 0⟩, ⟨0, 0⟩, ⟨0, 0⟩] [⟨0, 0⟩, ⟨1, 0⟩, ⟨0, 0⟩]
          none none).map UF.n) = some 0 := by
  refine ⟨?_, ?_, ?_⟩
  · rw [calculate_E_manual_no_norms]
    rfl
  · rw [calculate_E_manual_no_norms]
    have h14 : vector_norm (nominal_values [(⟨1, 0⟩ : UF), ⟨2, 0⟩, ⟨3, 0⟩]) = Real.sqrt 14 := by
      unfold vector_norm nominal_values
      norm_num
    have hsq : Real.sqrt 14 * Real.sqrt 14 = 14 := Real.mul_self_sqrt (by norm_num)
    have hne : Real.sqrt 14 ≠ 0 := by
      intro hzero
      rw [hzero, mul_zero] at hsq
      norm_num at hsq
    simp only [Option.map_some', h14]
    unfold dotR nominal_values
    simp only [List.map_cons, List.map_nil, List.zipWith_cons_cons, List.zipWith_nil_right,
      List.sum_cons, List.sum_nil]
    rw [Option.some.injEq]
    show (1 / Real.sqrt 14) * (1 / Real.sqrt 14) + ((2 / Real.sqrt 14) * (2 / Real.sqrt 14)
      + ((3 / Real.sqrt 14) * (3 / Real.sqrt 14) + 0)) = 1
    field_simp
    nlinarith [hsq]
  · rw [calculate_E_manual_no_norms]
    simp only [Option.map_some']
    unfold dotR nominal_values
    norm_num

/-- Witness for C3 at a concrete vector pair. -/
theorem E_nominal_is_normalized_dot_witness :
    ([⟨2, 0⟩] : List UF).length = ([⟨5, 0⟩] : List UF).length
    ∧ ((calculate_E_manual [⟨2, 0⟩] [⟨5, 0⟩] none none).map UF.n)
        = some (normalized_dot_product (nominal_values [⟨2, 0⟩]) (nominal_values [⟨5, 0⟩])) :=
  ⟨rfl, (E_nominal_is_normalized_dot [⟨2, 0⟩] [⟨5, 0⟩] rfl).1⟩

lemma sumA_n (l : List AF) : (AF.sumA l).n = (l.map AF.n).sum := by
  induction l with
  | nil => rfl
  | cons x xs ih => simp [AF.sumA, AF.add, List.foldr_cons, ih.symm]

lemma sumA_d (l : List AF) : (AF.sumA l).d = (l.map AF.d).sum := by
  induction l with
  | nil => rfl
  | cons x xs ih => simp [AF.sumA, AF.add, List.foldr_cons, ih.symm]

lemma list_sum_map_add {α M : Type} [AddCommMonoid M] (l : List α) (f g : α → M) :
    (l.map (fun x => f x + g x)).sum = (l.map f).sum + (l.map g).sum := by
  induction l with
  | nil => simp
  | cons x xs ih =>
    simp only [List.map_cons, List.sum_cons, ih]
    abel

lemma list_sum_map_smul_right {α : Type} (l : List α) (f : α → ℝ) (T : ℕ →₀ ℝ) :
    (l.map (fun x => f x • T)).sum = ((l.map f).sum) • T := by
  induction l with
  | nil => simp
  | cons x xs ih =>
    simp only [List.map_cons, List.sum_cons, ih, add_smul]

lemma list_sum_map_smul_left {α : Type} (l : List α) (c : ℝ) (g : α → ℕ →₀ ℝ) :
    (l.map (fun x => c • g x)).sum = c • (l.map g).sum := by
  induction l with
  | nil => simp
  | cons x xs ih =>
    simp only [List.map_cons, List.sum_cons, ih, smul_add]

lemma list_sum_map_div {α : Type} (l : List α) (f : α → ℝ) (c : ℝ) :
    (l.map (fun x => f x / c)).sum = (l.map f).sum / c := by
  induction l with
  | nil => simp
  | cons x xs ih =>
    simp only [List.map_cons, List.sum_cons, ih, add_div]

lemma varD_zero : varD 0 = 0 := by simp [varD]

lemma varD_single (a : ℕ) (c : ℝ) : varD (Finsupp.single a c) = c ^ 2 := by
  unfold varD
  rcases eq_or_ne c 0 with h | h
  · simp [h]
  · rw [Finsupp.support_single_ne_zero a h]
    simp

lemma varD_add_of_disjoint (f g : ℕ →₀ ℝ) (h : Disjoint f.support g.support) :
    varD (f + g) = varD f + varD g := by
  unfold varD
  rw [Finsupp.support_add_eq h, Finset.sum_union h]
  congr 1
  · apply Finset.sum_congr rfl
    intro i hi
    have hg : g i = 0 := by
      rw [← Finsupp.not_mem_support_iff]
      exact fun hgi => Finset.disjoint_left.mp h hi hgi
    simp [Finsupp.add_apply, hg]
  · apply Finset.sum_congr rfl
    intro i hi
    have hf : f i = 0 := by
      rw [← Finsupp.not_mem_support_iff]
      exact fun hfi => Finset.disjoint_left.mp h hfi hi
    simp [Finsupp.add_apply, hf]

lemma list_sum_map_neg {α : Type} (l : List α) (f : α → ℝ) :
    (l.map (fun x => -(f x))).sum = -((l.map f).sum) := by
  induction l with
  | nil => simp
  | cons x xs ih =>
    simp only [List.map_cons, List.sum_cons, ih]
    ring

lemma sq_sum_nonneg (v : List AF) : 0 ≤ (v.map (fun x => x.n * x.n)).sum := by
  apply List.sum_nonneg
  intro y hy
  rcases List.mem_map.mp hy with ⟨x, _, rfl⟩
  exact mul_self_nonneg x.n

lemma normSq_n (v : List AF) :
    (AF.sumA (v.map (fun x => AF.mul x x))).n = (v.map (fun x => x.n * x.n)).sum := by
  rw [sumA_n, List.map_map]
  rfl

lemma normSq_d (v : List AF) :
    (AF.sumA (v.map (fun x => AF.mul x x))).d
      = (2 : ℝ) • (v.map (fun x => x.n • x.d)).sum := by
  rw [sumA_d, List.map_map]
  have hfun : (AF.d ∘ fun x => AF.mul x x) = fun x : AF => x.n • x.d + x.n • x.d := rfl
  rw [hfun, list_sum_map_add, two_smul]

lemma normA_n (v : List AF) :
    (normA v).n = Real.sqrt ((v.map (fun x => x.n * x.n)).sum) := by
  unfold normA
  show Real.sqrt (AF.sumA (v.map (fun x => AF.mul x x))).n = _
  rw [normSq_n]

lemma half_smul_two_smul (r : ℝ) (T : ℕ →₀ ℝ) :
    (1 / (2 * r)) • ((2 : ℝ) • T) = (1 / r) • T := by
  rw [smul_smul]
  congr 1
  rcases eq_or_ne r 0 with h | h
  · simp [h]
  · field_simp

lemma normA_d (v : List AF) :
    (normA v).d = (1 / Real.sqrt ((v.map (fun x => x.n * x.n)).sum))
      • (v.map (fun x => x.n • x.d)).sum := by
  unfold normA
  show (1 / (2 * Real.sqrt (AF.sumA (v.map (fun x => AF.mul x x))).n))
      • (AF.sumA (v.map (fun x => AF.mul x x))).d = _
  rw [normSq_n, normSq_d, half_smul_two_smul]

lemma unitA_T_zero (v : List AF) :
    ((unitA v).map (fun x => x.n • x.d)).sum = 0 := by
  have hsq : Real.sqrt ((v.map (fun x => x.n * x.n)).sum)
      * Real.sqrt ((v.map (fun x => x.n * x.n)).sum) = (v.map (fun x => x.n * x.n)).sum :=
    Real.mul_self_sqrt (sq_sum_nonneg v)
  have key1 : ∀ r S : ℝ, r * r = S → ∀ a : ℝ, a / r * (1 / r) = a / S := by
    intro r S hr a
    rw [← hr, div_mul_div_comm, mul_one]
  have key2 : ∀ r S : ℝ, r * r = S → ∀ a : ℝ,
      a / r * (-(a / r ^ 2)) * (1 / r) = -(a * a) / (S * S) := by
    intro r S hr a
    rw [← hr, sq]
    rcases eq_or_ne r 0 with h0 | h0
    · simp [h0]
    · field_simp
      left
      ring
  unfold unitA
  rw [List.map_map]
  have hfun : ((fun x : AF => x.n • x.d) ∘ fun x => AF.div x (normA v))
      = fun x : AF => (1 / (v.map (fun x => x.n * x.n)).sum) • (x.n • x.d)
          + (-(x.n * x.n) / ((v.map (fun x => x.n * x.n)).sum
              * (v.map (fun x => x.n * x.n)).sum))
            • (v.map (fun x => x.n • x.d)).sum := by
    funext x
    show (x.n / (normA v).n) • ((1 / (normA v).n) • x.d
        + (-(x.n / (normA v).n ^ 2)) • (normA v).d) = _
    rw [normA_n, normA_d]
    rw [smul_add, smul_smul, smul_smul, smul_smul]
    congr 1
    · rw [key1 _ _ hsq x.n, smul_smul]
      congr 1
      rw [one_div, mul_comm, div_eq_mul_inv]
    · congr 1
      exact key2 _ _ hsq x.n
  rw [hfun, list_sum_map_add, list_sum_map_smul_left, list_sum_map_smul_right]
  rw [list_sum_map_div, list_sum_map_neg]
  rw [← add_smul]
  convert zero_smul ℝ _
  rcases eq_or_ne ((v.map (fun x => x.n * x.n)).sum) 0 with h0 | h0
  · rw [h0]
    norm_num
  · field_simp

lemma AF_eq_mk (x : AF) (nv : ℝ) (dv : ℕ →₀ ℝ) (hn : x.n = nv) (hd : x.d = dv) :
    x = ⟨nv, dv⟩ := by
  cases x
  simp_all

lemma zipWith_mul_self (l : List AF) :
    List.zipWith AF.mul l l = l.map (fun x => AF.mul x x) := by
  induction l with
  | nil => rfl
  | cons x xs ih => simp [ih]

lemma unitA_nn_sum (v : List AF) (hS : (v.map (fun x => x.n * x.n)).sum ≠ 0) :
    ((unitA v).map (fun x => x.n * x.n)).sum = 1 := by
  have hsq : Real.sqrt ((v.map (fun x => x.n * x.n)).sum)
      * Real.sqrt ((v.map (fun x => x.n * x.n)).sum) = (v.map (fun x => x.n * x.n)).sum :=
    Real.mul_self_sqrt (sq_sum_nonneg v)
  unfold unitA
  rw [List.map_map]
  have hfun : ((fun x : AF => x.n * x.n) ∘ fun x => AF.div x (normA v))
      = fun x : AF => (x.n * x.n) / ((v.map (fun x => x.n * x.n)).sum) := by
    funext x
    show (x.n / (normA v).n) * (x.n / (normA v).n) = _
    rw [normA_n, div_mul_div_comm, hsq]
  rw [hfun, list_sum_map_div, div_self hS]

lemma unit_dot_self (v : List AF) (hS : (v.map (fun x => x.n * x.n)).sum ≠ 0) :
    AF.sumA (List.zipWith AF.mul (unitA v) (unitA v)) = ⟨1, 0⟩ := by
  rw [zipWith_mul_self]
  refine AF_eq_mk _ _ _ ?_ ?_
  · rw [normSq_n (unitA v), unitA_nn_sum v hS]
  · rw [normSq_d (unitA v), unitA_T_zero, smul_zero]

lemma calculate_E_auto_same_file (v w : List AF) (fn : String) :
    calculate_E_auto v w (some fn) (some fn) none none
      = some (AF.sumA (List.zipWith AF.mul (unitA v) (unitA w))) := by
  unfold calculate_E_auto
  simp [unitA]

lemma calculate_E_auto_diff_file (v w : List AF) (f1 f2 : String) (h : f1 ≠ f2) :
    calculate_E_auto v w (some f1) (some f2) none none
      = some (AF.sumA (List.zipWith AF.mul (sever 0 0 (unitA v)) (sever 1 0 (unitA w)))) := by
  unfold calculate_E_auto
  simp [unitA, h]

lemma sever_dot_cons_d (x y : AF) (xs ys : List AF) (k : ℕ) :
    (AF.sumA (List.zipWith AF.mul (sever 0 k (x :: xs)) (sever 1 k (y :: ys)))).d
      = (Finsupp.single (2 * k) (y.n * AF.std x)
          + Finsupp.single (2 * k + 1) (x.n * AF.std y))
        + (AF.sumA (List.zipWith AF.mul (sever 0 (k + 1) xs) (sever 1 (k + 1) ys))).d := by
  show ((AF.mul ⟨x.n, Finsupp.single (2 * k + 0) (AF.std x)⟩
      ⟨y.n, Finsupp.single (2 * k + 1) (AF.std y)⟩).add
        (AF.sumA (List.zipWith AF.mul (sever 0 (k + 1) xs) (sever 1 (k + 1) ys)))).d = _
  show (x.n • Finsupp.single (2 * k + 1) (AF.std y)
      + y.n • Finsupp.single (2 * k + 0) (AF.std x))
        + (AF.sumA (List.zipWith AF.mul (sever 0 (k + 1) xs) (sever 1 (k + 1) ys))).d = _
  rw [Finsupp.smul_single', Finsupp.smul_single']
  congr 1
  rw [add_zero]
  abel

lemma sever_dot_support (a : List AF) : ∀ (b : List AF) (k m : ℕ),
    m ∈ (AF.sumA (List.zipWith AF.mul (sever 0 k a) (sever 1 k b))).d.support → 2 * k ≤ m := by
  induction a with
  | nil =>
    intro b k m hm
    simp [sever, AF.sumA] at hm
  | cons x xs ih =>
    intro b k m hm
    cases b with
    | nil => simp [sever, AF.sumA] at hm
    | cons y ys =>
      rw [sever_dot_cons_d] at hm
      rcases Finset.mem_union.mp (Finsupp.support_add hm) with hm1 | hm2
      · rcases Finset.mem_union.mp (Finsupp.support_add hm1) with hs1 | hs2
        · have := Finset.mem_singleton.mp (Finsupp.support_single_subset hs1)
          omega
        · have := Finset.mem_singleton.mp (Finsupp.support_single_subset hs2)
          omega
      · have := ih ys (k + 1) m hm2
        omega

lemma sever_dot_var (a : List AF) : ∀ (b : List AF) (k : ℕ),
    AF.var (AF.sumA (List.zipWith AF.mul (sever 0 k a) (sever 1 k b)))
      = ((List.zip a b).map
          (fun p => (p.2.n * AF.std p.1) ^ 2 + (p.1.n * AF.std p.2) ^ 2)).sum := by
  induction a with
  | nil =>
    intro b k
    simp [sever, AF.sumA, AF.var, varD]
  | cons x xs ih =>
    intro b k
    cases b with
    | nil => simp [sever, AF.sumA, AF.var, varD]
    | cons y ys =>
      unfold AF.var
      rw [sever_dot_cons_d]
      have hdisj2 : Disjoint (Finsupp.single (2 * k) (y.n * AF.std x)).support
          (Finsupp.single (2 * k + 1) (x.n * AF.std y)).support := by
        rw [Finset.disjoint_left]
        intro m hm1 hm2
        have h1 := Finset.mem_singleton.mp (Finsupp.support_single_subset hm1)
        have h2 := Finset.mem_singleton.mp (Finsupp.support_single_subset hm2)
        omega
      have hdisj : Disjoint (Finsupp.single (2 * k) (y.n * AF.std x)
            + Finsupp.single (2 * k + 1) (x.n * AF.std y)).support
          (AF.sumA (List.zipWith AF.mul (sever 0 (k + 1) xs) (sever 1 (k + 1) ys))).d.support := by
        rw [Finset.disjoint_left]
        intro m hm1 hm2
        have hle := sever_dot_support xs ys (k + 1) m hm2
        rcases Finset.mem_union.mp (Finsupp.support_add hm1) with hs1 | hs2
        · have := Finset.mem_singleton.mp (Finsupp.support_single_subset hs1)
          omega
        · have := Finset.mem_singleton.mp (Finsupp.support_single_subset hs2)
          omega
      rw [varD_add_of_disjoint _ _ hdisj, varD_add_of_disjoint _ _ hdisj2,
        varD_single, varD_single]
      have ihy := ih ys (k + 1)
      unfold AF.var at ihy
      rw [ihy]
      rw [List.zip_cons_cons, List.map_cons, List.sum_cons]

/-- C4: in correlated (`'automatic'`) mode, when the application and
experiment vectors are the same correlated quantities (derived from the
same source, passed with identical filenames) the correlation between
their components survives the norm division and the dot product: the
returned similarity index is exactly `1` with zero derivative vector, so
its propagated uncertainty is `0`; when the filenames differ, every
correlation between the two unit vectors is severed before the dot
product: the returned variance is the per-component independent sum (no
cross-covariance terms), determined by the nominal values and standard
deviations of the unit-vector components alone. -/
theorem automatic_mode_correlation_contract (v appv expv : List AF) (fn f1 f2 : String)
    (hS : (v.map (fun x => x.n * x.n)).sum ≠ 0) (hf : f1 ≠ f2) :
    calculate_E_auto v v (some fn) (some fn) none none = some ⟨1, 0⟩
    ∧ AF.std ⟨1, (0 : ℕ →₀ ℝ)⟩ = 0
    ∧ (calculate_E_auto appv expv (some f1) (some f2) none none).map AF.var
        = some (((List.zip (unitA appv) (unitA expv)).map
            (fun p => (p.2.n * AF.std p.1) ^ 2 + (p.1.n * AF.std p.2) ^ 2)).sum) := by
  refine ⟨?_, ?_, ?_⟩
  · rw [calculate_E_auto_same_file, unit_dot_self v hS]
  · unfold AF.std AF.var
    simp [varD_zero]
  · rw [calculate_E_auto_diff_file _ _ _ _ hf, Option.map_some', sever_dot_var]

/-- Witness for C4 at a concrete one-component vector. -/
theorem automatic_mode_correlation_contract_witness :
    calculate_E_auto [⟨1, Finsupp.single 0 1⟩] [⟨1, Finsupp.single 0 1⟩]
        (some "case.sdf") (some "case.sdf") none none = some ⟨1, 0⟩ :=
  (automatic_mode_correlation_contract [⟨1, Finsupp.single 0 1⟩] [] [] "case.sdf" "a" "b"
    (by norm_num) (by decide)).1

lemma calculate_E_manual_with_norms (a e : List UF) (en an : UF) :
    calculate_E_manual a e (some en) (some an) = some (E_manual_with_norms a e en an) := rfl

lemma dotR_div (A E : List ℝ) (c d : ℝ) :
    dotR (A.map (· / c)) (E.map (· / d)) = dotR A E / (c * d) := by
  unfold dotR
  induction A generalizing E with
  | nil => simp
  | cons a as ih =>
    cases E with
    | nil => simp
    | cons e es =>
      simp only [List.map_cons, List.zipWith_cons_cons, List.sum_cons, ih es]
      rw [add_div]
      congr 1
      rw [div_mul_div_comm]

lemma dotA_n (a : List AF) : ∀ b : List AF,
    (AF.sumA (List.zipWith AF.mul a b)).n = dotR (a.map AF.n) (b.map AF.n) := by
  induction a with
  | nil =>
    intro b
    cases b <;> simp [AF.sumA, dotR]
  | cons x xs ih =>
    intro b
    cases b with
    | nil => simp [AF.sumA, dotR]
    | cons y ys =>
      show (AF.add (AF.mul x y) (AF.sumA (List.zipWith AF.mul xs ys))).n = _
      show x.n * y.n + (AF.sumA (List.zipWith AF.mul xs ys)).n = _
      rw [ih ys]
      simp [dotR]

lemma sever_map_n (c : ℕ) : ∀ (k : ℕ) (l : List AF), (sever c k l).map AF.n = l.map AF.n := by
  intro k l
  induction l generalizing k with
  | nil => rfl
  | cons x xs ih => simp [sever, ih]

lemma map_n_div (a : List AF) (w : AF) :
    (a.map (fun x => AF.div x w)).map AF.n = (a.map AF.n).map (· / w.n) := by
  rw [List.map_map, List.map_map]
  rfl

lemma calculate_E_auto_with_norms (a e : List AF) (f1 f2 : String) (ena ana : AF) :
    calculate_E_auto a e (some f1) (some f2) (some ena) (some ana)
      = some (AF.sumA (List.zipWith AF.mul
          (if f1 ≠ f2 then sever 0 0 (a.map (fun x => AF.div x ana))
            else a.map (fun x => AF.div x ana))
          (if f1 ≠ f2 then sever 1 0 (e.map (fun x => AF.div x ena))
            else e.map (fun x => AF.div x ena)))) := rfl

lemma calculate_E_auto_with_norms_n (a e : List AF) (f1 f2 : String) (ena ana : AF) :
    (calculate_E_auto a e (some f1) (some f2) (some ena) (some ana)).map AF.n
      = some (dotR (a.map AF.n) (e.map AF.n) / (ana.n * ena.n)) := by
  rw [calculate_E_auto_with_norms, Option.map_some']
  rcases eq_or_ne f1 f2 with h | h
  · rw [if_neg (by simp [h]), if_neg (by simp [h])]
    rw [dotA_n, map_n_div, map_n_div, dotR_div]
  · rw [if_pos h, if_pos h]
    rw [dotA_n, sever_map_n, sever_map_n, map_n_div, map_n_div, dotR_div]

/-- C10: in both propagation modes, the norms-not-provided guard is the
conjunction of both norm arguments being `None`; if exactly one of
`application_norm` and `experiment_norm` is provided, the missing norm is
never computed and the division by the remaining `None` fails
(`TypeError`, embedded `none`), while providing both or neither yields a
defined result: callers must supply both norms or neither. -/
theorem single_norm_is_undefined (appm expm : List UF) (appa expa : List AF)
    (nrm : UF) (nra : AF) (f1 f2 : String) :
    calculate_E_manual appm expm (some nrm) none = none
    ∧ calculate_E_manual appm expm none (some nrm) = none
    ∧ (calculate_E_manual appm expm none none).isSome
    ∧ (calculate_E_manual appm expm (some nrm) (some nrm)).isSome
    ∧ calculate_E_auto appa expa (some f1) (some f2) (some nra) none = none
    ∧ calculate_E_auto appa expa (some f1) (some f2) none (some nra) = none
    ∧ (calculate_E_auto appa expa (some f1) (some f2) none none).isSome
    ∧ (calculate_E_auto appa expa (some f1) (some f2) (some nra) (some nra)).isSome :=
  ⟨rfl, rfl, rfl, rfl, rfl, rfl, rfl, rfl⟩

/-- C8: in the contribution decomposition, every nuclide of the union that
is absent from either side receives the contribution `(0, 0)` and `(0, 0)`
for every reaction under it, and the decomposition is a defined result
(not an error) for any nonempty application dictionary. -/
theorem absent_nuclide_contributes_zero (application experiment : SdfDict)
    (hne : application ≠ []) (iso : String)
    (hmem : iso ∈ application.map Prod.fst ∨ iso ∈ experiment.map Prod.fst)
    (habsent : iso ∉ application.map Prod.fst ∨ iso ∉ experiment.map Prod.fst) :
    ∃ nw rw,
      get_nuclide_and_reaction_wise_E_contributions application experiment = some (nw, rw)
      ∧ (iso, (⟨0, 0⟩ : UF)) ∈ nw
      ∧ ∀ r ∈ allReactions application, (iso, r, (⟨0, 0⟩ : UF)) ∈ rw := by
  have hiso : iso ∈ (application.map Prod.fst ++ experiment.map Prod.fst).dedup :=
    List.mem_dedup.mpr (List.mem_append.mpr hmem)
  match application, hne with
  | a :: rest, _ =>
    refine ⟨_, _, rfl, ?_, ?_⟩
    · apply List.mem_map.mpr
      exact ⟨iso, hiso, by rw [if_pos habsent]⟩
    · intro r hr
      apply List.mem_flatten.mpr
      refine ⟨(allReactions (a :: rest)).map (fun reaction => (iso, reaction, (⟨0, 0⟩ : UF))),
        ?_, ?_⟩
      · apply List.mem_map.mpr
        exact ⟨iso, hiso, by rw [if_pos habsent]⟩
      · exact List.mem_map.mpr ⟨r, hr, rfl⟩

/-- Witness for C8 on a one-nuclide application and an empty experiment. -/
theorem absent_nuclide_contributes_zero_witness :
    ∃ nw rw,
      get_nuclide_and_reaction_wise_E_contributions
          [("u-235", [("total", ([] : List UF))])] [] = some (nw, rw)
      ∧ ("u-235", (⟨0, 0⟩ : UF)) ∈ nw
      ∧ ∀ r ∈ allReactions [("u-235", [("total", ([] : List UF))])],
          ("u-235", r, (⟨0, 0⟩ : UF)) ∈ rw :=
  absent_nuclide_contributes_zero _ _ (List.cons_ne_nil _ _) "u-235"
    (Or.inl (by simp)) (Or.inr (by simp))

/-- C7: when both precomputed norms are supplied, normalization divides by
the supplied norms and the passed-in vectors' own norms play no role in
the normalization: for arbitrary supplied norms, in both modes, the
nominal result is `dot(v_app, v_exp) / (application_norm ·
experiment_norm)`; and the contribution decomposer computes the two
full-concatenated-vector norms once and passes exactly those norms into
every nuclide-level and reaction-level sub-vector computation. -/
theorem supplied_norms_are_used_directly
    (a e : List UF) (en an : UF) (aa ea : List AF) (ena ana : AF) (f1 f2 : String)
    (application experiment : SdfDict) (iso : String)
    (hne : application ≠ [])
    (happ : iso ∈ application.map Prod.fst) (hexp : iso ∈ experiment.map Prod.fst) :
    ((calculate_E_manual a e (some en) (some an)).map UF.n
        = some (dotR (nominal_values a) (nominal_values e) / (an.n * en.n)))
    ∧ ((calculate_E_auto aa ea (some f1) (some f2) (some ena) (some ana)).map AF.n
        = some (dotR (aa.map AF.n) (ea.map AF.n) / (ana.n * ena.n)))
    ∧ (∃ nw rw,
        get_nuclide_and_reaction_wise_E_contributions application experiment = some (nw, rw)
        ∧ (iso, E_manual_with_norms
            (create_sensitivity_vector ((allReactions application).map
              (fun r => profileOf application iso r)))
            (create_sensitivity_vector ((allReactions application).map
              (fun r => profileOf experiment iso r)))
            (fullNorm experiment) (fullNorm application)) ∈ nw
        ∧ ∀ r ∈ allReactions application,
            (iso, r, E_manual_with_norms (profileOf application iso r)
              (profileOf experiment iso r)
              (fullNorm experiment) (fullNorm application)) ∈ rw) := by
  refine ⟨?_, calculate_E_auto_with_norms_n aa ea f1 f2 ena ana, ?_⟩
  · rw [calculate_E_manual_with_norms, Option.map_some']
    refine congrArg some ?_
    exact dotR_div (nominal_values a) (nominal_values e) an.n en.n
  · have hiso : iso ∈ (application.map Prod.fst ++ experiment.map Prod.fst).dedup :=
      List.mem_dedup.mpr (List.mem_append.mpr (Or.inl happ))
    have hcond : ¬(iso ∉ application.map Prod.fst ∨ iso ∉ experiment.map Prod.fst) := by
      push_neg
      exact ⟨happ, hexp⟩
    match application, hne, hiso, hcond with
    | ahd :: rest, _, hiso, hcond =>
      refine ⟨_, _, rfl, ?_, ?_⟩
      · exact List.mem_map.mpr ⟨iso, hiso, by rw [if_neg hcond]⟩
      · intro r hr
        apply List.mem_flatten.mpr
        exact ⟨_, List.mem_map.mpr ⟨iso, hiso, by rw [if_neg hcond]⟩,
          List.mem_map.mpr ⟨r, hr, rfl⟩⟩

/-- Witness for C7 at concrete vectors, norms and dictionaries. -/
theorem supplied_norms_are_used_directly_witness :
    ((calculate_E_manual [⟨1, 0⟩] [⟨1, 0⟩] (some ⟨2, 0⟩) (some ⟨3, 0⟩)).map UF.n
        = some (dotR (nominal_values [⟨1, 0⟩]) (nominal_values [⟨1, 0⟩])
            / ((⟨3, 0⟩ : UF).n * (⟨2, 0⟩ : UF).n))) :=
  (supplied_norms_are_used_directly [⟨1, 0⟩] [⟨1, 0⟩] ⟨2, 0⟩ ⟨3, 0⟩ [] [] ⟨1, 0⟩ ⟨1, 0⟩
    "a.sdf" "b.sdf" [("u-235", [("total", [⟨1, 0⟩])])] [("u-235", [("total", [⟨2, 0⟩])])]
    "u-235" (List.cons_ne_nil _ _) (by simp) (by simp)).1
